import Mathlib

/-
Verification of the blackjack round engine (src/main.rs).

The Rust source is shallowly embedded: enums become inductive types,
structs become structures, `Vec` becomes `List` (push appends at the end,
pop removes the last element), `u32` becomes `Nat` (all arithmetic here is
on values at most 42, far below 2^32, so no wrap-around can occur),
`Option` stays `Option`, and the mutation of `Deck` in `draw_card` becomes
explicit state passing: the Lean `draw_card` returns the drawn card
together with the updated deck.
-/

namespace Blackjack

/-- The player actions (Rust enum `Action`). -/
inductive Action where
  | Hit
  | Stand
  | DoubleDown
  | SplitCards
  | Surrender
deriving DecidableEq

/-- The four card suits (Rust enum `CardSuit`). -/
inductive CardSuit where
  | Clubs
  | Hearts
  | Diamonds
  | Spades
deriving DecidableEq, Fintype

/-- Rust `CardSuit::ALL_VALUES`: the suits in declaration order. -/
def CardSuit.ALL_VALUES : List CardSuit :=
  [CardSuit.Clubs, CardSuit.Hearts, CardSuit.Diamonds, CardSuit.Spades]

/-- Rust struct `HandValue`, a wrapper around a `u32` total. -/
structure HandValue where
  value : Nat
deriving DecidableEq

/-- Rust `HandValue::from_u32`: accepts only values strictly below 21. -/
def HandValue.from_u32 (x : Nat) : Option HandValue :=
  if x < 21 then some ⟨x⟩ else none

/-- Models `HandValue::unsafe_from_u32`, which unwraps `from_u32` (panicking on
`None`); every call site in the source passes a value below 21, where the
unwrap succeeds and returns exactly `HandValue { value: x }`. -/
def HandValue.unchecked_from_u32 (x : Nat) : HandValue :=
  (HandValue.from_u32 x).getD ⟨0⟩

/-- Rust `HandValue::combine_with_separate_value`: sums two hand values, accepting
sums up to and including 21. -/
def HandValue.combine_with_separate_value (a b : HandValue) : Option HandValue :=
  let raw_result := a.value + b.value
  if raw_result ≤ 21 then some ⟨raw_result⟩ else none

/-- The thirteen ranks (Rust enum `CardValue`). -/
inductive CardValue where
  | Two
  | Three
  | Four
  | Five
  | Six
  | Seven
  | Eight
  | Nine
  | Ten
  | Jack
  | Queen
  | King
  | Ace
deriving DecidableEq, Fintype

/-- Rust `CardValue::ALL_VALUES`: the ranks in declaration order. -/
def CardValue.ALL_VALUES : List CardValue :=
  [CardValue.Two, CardValue.Three, CardValue.Four, CardValue.Five,
   CardValue.Six, CardValue.Seven, CardValue.Eight, CardValue.Nine,
   CardValue.Ten, CardValue.Jack, CardValue.Queen, CardValue.King,
   CardValue.Ace]

/-- Rust `card_value_to_hand_value`: the possible numeric values of a rank
(aces are dual-valued). -/
def card_value_to_hand_value : CardValue → List HandValue
  | CardValue.Two => [HandValue.unchecked_from_u32 2]
  | CardValue.Three => [HandValue.unchecked_from_u32 3]
  | CardValue.Four => [HandValue.unchecked_from_u32 4]
  | CardValue.Five => [HandValue.unchecked_from_u32 5]
  | CardValue.Six => [HandValue.unchecked_from_u32 6]
  | CardValue.Seven => [HandValue.unchecked_from_u32 7]
  | CardValue.Eight => [HandValue.unchecked_from_u32 8]
  | CardValue.Nine => [HandValue.unchecked_from_u32 9]
  | CardValue.Ten => [HandValue.unchecked_from_u32 10]
  | CardValue.Jack => [HandValue.unchecked_from_u32 10]
  | CardValue.Queen => [HandValue.unchecked_from_u32 10]
  | CardValue.King => [HandValue.unchecked_from_u32 10]
  | CardValue.Ace => [HandValue.unchecked_from_u32 1, HandValue.unchecked_from_u32 11]

/-- Rust `combine_possible_values`: all pairwise combinations of two lists of hand
values, dropping the combinations whose sum exceeds 21 (`filter_map identity`
over the optional results). -/
def combine_possible_values (values_0 values_1 : List HandValue) : List HandValue :=
  (values_0.flatMap fun x => values_1.map fun y => x.combine_with_separate_value y).filterMap id

/-- Rust `calculate_current_hand_value`: the pruned fold of pairwise combination
over the hand, starting from the single total 0. -/
def calculate_current_hand_value (hand : List CardValue) : List HandValue :=
  (hand.map card_value_to_hand_value).foldl
    (fun x y => combine_possible_values x y)
    [HandValue.unchecked_from_u32 0]

/-- Rust `cartesian_product`: all pairs from two lists. -/
def cartesian_product {A B : Type} (xs : List A) (ys : List B) : List (A × B) :=
  xs.flatMap fun x => ys.map fun y => (x, y)

/-- Rust `raw_calculate_current_hand_value`: the unpruned fold, keeping every sum
including those above 21. -/
def raw_calculate_current_hand_value (hand : List CardValue) : List Nat :=
  (hand.map card_value_to_hand_value).foldl
    (fun x y => (cartesian_product x y).map fun x_and_y => x_and_y.1 + x_and_y.2.value)
    [0]

/-- Rust struct `Card`: a suit together with a rank. -/
structure Card where
  suit : CardSuit
  value : CardValue
deriving DecidableEq, Fintype

/-- Rust struct `Deck`: remaining and drawn cards. -/
structure Deck where
  remaining_cards : List Card
  drawn_cards : List Card
deriving DecidableEq

/-- Rust struct `PlayerState`: the deck and the player hand owned by the
round (the `&mut Deck` of the source becomes a plain field). -/
structure PlayerState where
  deck : Deck
  hand : List Card
deriving DecidableEq

/-- Rust `PlayerState::create_hand_values`: the ranks of the cards in hand. -/
def PlayerState.create_hand_values (p : PlayerState) : List CardValue :=
  p.hand.map fun card => card.value

/-- The round states (Rust enum `GameState`). -/
inductive GameState where
  | GameWon (p : PlayerState)
  | GameLost (p : PlayerState)
  | Continuing (p : PlayerState)
deriving DecidableEq

/-- Rust `GameState::start`: a fresh round holds the given deck and an empty hand. -/
def GameState.start (deck : Deck) : GameState :=
  GameState.Continuing { deck := deck, hand := [] }

/-- The 52 cards in the order `Deck::new` constructs them: suits outermost,
ranks innermost. -/
def all_cards : List Card :=
  CardSuit.ALL_VALUES.flatMap fun suit =>
    CardValue.ALL_VALUES.map fun value => { suit := suit, value := value }

/-- Rust `Deck::new`: all 52 cards remaining, none drawn. -/
def Deck.new : Deck :=
  { remaining_cards := all_cards, drawn_cards := [] }

/-- Rust `draw_card`: pop the last remaining card and append it to the drawn
cards; on an empty deck return no card and the deck unchanged. -/
def draw_card (deck : Deck) : Option Card × Deck :=
  match deck.remaining_cards.getLast? with
  | some card =>
      (some card,
        { remaining_cards := deck.remaining_cards.dropLast,
          drawn_cards := deck.drawn_cards ++ [card] })
  | none => (none, deck)

/-- Iterating `draw_card` a given number of times; this models an arbitrary
sequence of draw calls on a deck. -/
def draw_n : Nat → Deck → Deck
  | 0, d => d
  | n + 1, d => draw_n n (draw_card d).2

/-- Rust `is_hand_too_large`: a non-empty hand with no achievable total. -/
def is_hand_too_large (hand : List Card) : Bool :=
  let card_values := hand.map fun card => card.value
  if !hand.isEmpty then
    (calculate_current_hand_value card_values).isEmpty
  else
    false

/-- Rust `deal_with_action`: the round transition function. -/
def deal_with_action (action : Action) (state : GameState) : GameState :=
  match state with
  | GameState.GameLost p => GameState.GameLost p
  | GameState.GameWon p => GameState.GameWon p
  | GameState.Continuing player_state =>
      match action with
      | Action.Surrender => GameState.GameLost player_state
      | Action.Hit =>
          let drawn := draw_card player_state.deck
          let card_opt := drawn.1
          let hand :=
            match card_opt with
            | some card => player_state.hand ++ [card]
            | none => player_state.hand
          let player_state : PlayerState := { deck := drawn.2, hand := hand }
          if is_hand_too_large player_state.hand then
            GameState.GameLost player_state
          else
            let card_values := player_state.create_hand_values
            let possible_hand_values := calculate_current_hand_value card_values
            let are_any_hand_values_21 :=
              (possible_hand_values.find? fun x => x.value == 21).isSome
            if are_any_hand_values_21 then
              GameState.GameWon player_state
            else
              GameState.Continuing player_state
      | Action.Stand => GameState.GameLost player_state
      | Action.DoubleDown => GameState.GameLost player_state
      | Action.SplitCards => GameState.GameLost player_state

/-- Rust `continue_with_game`: only `Continuing` keeps the loop going. -/
def continue_with_game (game_state : GameState) : Bool :=
  match game_state with
  | GameState.GameWon _ => false
  | GameState.GameLost _ => false
  | GameState.Continuing _ => true

/-!
Helper lemmas shared by several claim theorems.
-/

/-- A hand is too large exactly when it is non-empty and has no achievable
total. -/
lemma is_hand_too_large_iff (hand : List Card) :
    is_hand_too_large hand = true ↔
      hand ≠ [] ∧ calculate_current_hand_value (hand.map fun card => card.value) = [] := by
  cases hand with
  | nil => simp [is_hand_too_large]
  | cons c cs => simp [is_hand_too_large]

/-- Valuating a hand extended by one rank combines the old totals with the
new rank's values. -/
lemma calculate_concat (hand : List CardValue) (c : CardValue) :
    calculate_current_hand_value (hand ++ [c])
      = combine_possible_values (calculate_current_hand_value hand)
          (card_value_to_hand_value c) := by
  unfold calculate_current_hand_value
  rw [List.map_append, List.foldl_append]
  rfl

/-!
Theorems for the spec claims.
-/

/-- C2: every action on a `GameWon` or `GameLost` state returns the state
unchanged (same variant, same deck, same hand), and a `Continuing` state
becomes `GameLost` under each of Surrender, Stand, DoubleDown and
SplitCards, with the player state (deck and hand) unchanged — in
particular no draw occurs on Surrender. -/
theorem transition_table_spec (p : PlayerState) :
    (∀ a : Action,
      deal_with_action a (GameState.GameWon p) = GameState.GameWon p ∧
      deal_with_action a (GameState.GameLost p) = GameState.GameLost p) ∧
    deal_with_action Action.Surrender (GameState.Continuing p) = GameState.GameLost p ∧
    deal_with_action Action.Stand (GameState.Continuing p) = GameState.GameLost p ∧
    deal_with_action Action.DoubleDown (GameState.Continuing p) = GameState.GameLost p ∧
    deal_with_action Action.SplitCards (GameState.Continuing p) = GameState.GameLost p :=
  ⟨fun _ => ⟨rfl, rfl⟩, rfl, rfl, rfl, rfl⟩

/-- C3: the hand valuation yields, as sets of totals, exactly \x7b1, 11\x7d for
a lone ace, \x7b2, 12\x7d for two aces, \x7b20\x7d for king-queen, the empty set for
king-queen-two, and \x7b11, 21\x7d for ace-king. -/
theorem hand_valuation_examples :
    ((calculate_current_hand_value [CardValue.Ace]).map HandValue.value).toFinset
      = ({1, 11} : Finset Nat) ∧
    ((calculate_current_hand_value [CardValue.Ace, CardValue.Ace]).map HandValue.value).toFinset
      = ({2, 12} : Finset Nat) ∧
    ((calculate_current_hand_value [CardValue.King, CardValue.Queen]).map HandValue.value).toFinset
      = ({20} : Finset Nat) ∧
    calculate_current_hand_value [CardValue.King, CardValue.Queen, CardValue.Two] = [] ∧
    ((calculate_current_hand_value [CardValue.Ace, CardValue.King]).map HandValue.value).toFinset
      = ({11, 21} : Finset Nat) := by
  decide

/-- C4, counterexample: the collection returned by
`calculate_current_hand_value` is NOT deduplicated — for the two-ace hand
it is the three-element collection [2, 12, 12], in which the total 12
occurs twice, not once. -/
theorem hand_values_not_deduplicated :
    (calculate_current_hand_value [CardValue.Ace, CardValue.Ace]).map HandValue.value
      = [2, 12, 12] ∧
    ((calculate_current_hand_value [CardValue.Ace, CardValue.Ace]).map HandValue.value).count 12
      = 2 := by
  decide

/-- C5: `HandValue.from_u32 x` succeeds exactly when `x < 21` (so no single
standalone `HandValue` built by it represents 21), while
`combine_with_separate_value` succeeds on the sum exactly when the sum is
at most 21 — the strict and the inclusive bound are asymmetric. -/
theorem hand_value_bound_asymmetry (x : Nat) (a b : HandValue) :
    (HandValue.from_u32 x = some ⟨x⟩ ↔ x < 21) ∧
    (HandValue.from_u32 x = none ↔ 21 ≤ x) ∧
    (a.combine_with_separate_value b = some ⟨a.value + b.value⟩ ↔ a.value + b.value ≤ 21) ∧
    (a.combine_with_separate_value b = none ↔ 21 < a.value + b.value) := by
  unfold HandValue.from_u32 HandValue.combine_with_separate_value
  refine ⟨?_, ?_, ?_, ?_⟩ <;> dsimp only <;> split <;> simp_all

/-- C6: `is_hand_too_large` holds exactly on a non-empty hand whose list of
achievable totals is empty; the empty hand is never too large, and the
empty hand's totals are the singleton list holding total 0. -/
theorem too_large_iff_nonempty_no_totals (hand : List Card) :
    (is_hand_too_large hand = true ↔
      hand ≠ [] ∧ calculate_current_hand_value (hand.map fun card => card.value) = []) ∧
    is_hand_too_large [] = false ∧
    calculate_current_hand_value [] = [HandValue.mk 0] :=
  ⟨is_hand_too_large_iff hand, rfl, rfl⟩

/-- C7: a hand that is too large stays too large after appending any
further card — a busted hand never becomes non-busted by growing. -/
theorem too_large_monotone (hand : List Card) (c : Card)
    (h : is_hand_too_large hand = true) :
    is_hand_too_large (hand ++ [c]) = true := by
  rw [is_hand_too_large_iff] at h ⊢
  obtain ⟨hne, hnil⟩ := h
  refine ⟨by simp, ?_⟩
  rw [List.map_append]
  simp only [List.map_cons, List.map_nil]
  rw [calculate_concat, hnil]
  rfl

/-- Witness for C7: king-queen-two is busted, and stays busted after an
ace is appended. -/
theorem too_large_monotone_witness :
    is_hand_too_large
      [Card.mk CardSuit.Clubs CardValue.King, Card.mk CardSuit.Clubs CardValue.Queen,
       Card.mk CardSuit.Clubs CardValue.Two] = true ∧
    is_hand_too_large
      ([Card.mk CardSuit.Clubs CardValue.King, Card.mk CardSuit.Clubs CardValue.Queen,
        Card.mk CardSuit.Clubs CardValue.Two] ++ [Card.mk CardSuit.Hearts CardValue.Ace]) = true :=
  ⟨by decide, too_large_monotone _ (Card.mk CardSuit.Hearts CardValue.Ace) (by decide)⟩

/-- C9: drawing from a deck whose remaining cards end in a given card
returns exactly that card, removes it from the remaining cards, appends it
to the drawn cards, and shrinks the remaining cards by exactly one; on an
empty deck the draw returns no card and leaves the deck unchanged. -/
theorem draw_card_spec (deck : Deck) :
    (∀ (init : List Card) (card : Card),
      deck.remaining_cards = init ++ [card] →
      draw_card deck
        = (some card,
           { remaining_cards := init, drawn_cards := deck.drawn_cards ++ [card] }) ∧
      (draw_card deck).2.remaining_cards.length + 1 = deck.remaining_cards.length) ∧
    (deck.remaining_cards = [] →
      draw_card deck = (none, deck) ∧
      (draw_card deck).2.remaining_cards.length = 0) := by
  obtain ⟨rem, drawn⟩ := deck
  constructor
  · rintro init card rfl
    have hd : draw_card ⟨init ++ [card], drawn⟩ = (some card, ⟨init, drawn ++ [card]⟩) := by
      simp [draw_card, List.getLast?_concat, List.dropLast_concat]
    refine ⟨hd, ?_⟩
    rw [hd]
    simp
  · rintro rfl
    exact ⟨rfl, rfl⟩

/-- Witness for C9: drawing from a concrete two-card deck pops the last
card, and drawing from an exhausted deck is a no-op. -/
theorem draw_card_spec_witness :
    draw_card
        { remaining_cards :=
            [Card.mk CardSuit.Clubs CardValue.Two, Card.mk CardSuit.Hearts CardValue.Ace],
          drawn_cards := [] }
      = (some (Card.mk CardSuit.Hearts CardValue.Ace),
         { remaining_cards := [Card.mk CardSuit.Clubs CardValue.Two],
           drawn_cards := [Card.mk CardSuit.Hearts CardValue.Ace] }) ∧
    draw_card
        { remaining_cards := [],
          drawn_cards := [Card.mk CardSuit.Hearts CardValue.Ace] }
      = (none,
         { remaining_cards := [],
           drawn_cards := [Card.mk CardSuit.Hearts CardValue.Ace] }) :=
  ⟨((draw_card_spec _).1 [Card.mk CardSuit.Clubs CardValue.Two]
      (Card.mk CardSuit.Hearts CardValue.Ace) rfl).1,
   ((draw_card_spec _).2 rfl).1⟩

/-- One draw preserves the partition equation: the remaining cards followed
by the drawn cards in reverse draw order are exactly the full card list. -/
lemma draw_card_partition (d : Deck)
    (h : d.remaining_cards ++ d.drawn_cards.reverse = all_cards) :
    (draw_card d).2.remaining_cards ++ (draw_card d).2.drawn_cards.reverse = all_cards := by
  obtain ⟨rem, drawn⟩ := d
  rcases List.eq_nil_or_concat rem with hnil | ⟨l, a, rfl⟩
  · subst hnil
    exact h
  · simp only [List.concat_eq_append] at h ⊢
    have hd : draw_card ⟨l ++ [a], drawn⟩ = (some a, ⟨l, drawn ++ [a]⟩) := by
      simp [draw_card, List.getLast?_concat, List.dropLast_concat]
    rw [hd, ← h]
    simp [List.reverse_append]

/-- Any number of draws preserves the partition equation. -/
lemma draw_n_partition (n : Nat) :
    ∀ d : Deck, d.remaining_cards ++ d.drawn_cards.reverse = all_cards →
      (draw_n n d).remaining_cards ++ (draw_n n d).drawn_cards.reverse = all_cards := by
  induction n with
  | zero => intro d h; exact h
  | succ n ih => intro d h; exact ih _ (draw_card_partition d h)

/-- The 52-card list has no duplicates. -/
lemma all_cards_nodup : all_cards.Nodup := by decide

/-- Every card occurs in the 52-card list. -/
lemma mem_all_cards (c : Card) : c ∈ all_cards := by
  revert c
  decide

/-- C8: starting from a fresh deck, after any number of draws the remaining
and drawn cards together are a permutation of the fixed 52-card list, every
card occurs exactly once across the two sequences, and the two sequences
are disjoint. -/
theorem deck_partition_invariant (n : Nat) :
    ((draw_n n Deck.new).remaining_cards ++ (draw_n n Deck.new).drawn_cards).Perm all_cards ∧
    (∀ c : Card,
      ((draw_n n Deck.new).remaining_cards ++ (draw_n n Deck.new).drawn_cards).count c = 1) ∧
    (draw_n n Deck.new).remaining_cards.Disjoint (draw_n n Deck.new).drawn_cards ∧
    all_cards.length = 52 := by
  have hbase : Deck.new.remaining_cards ++ Deck.new.drawn_cards.reverse = all_cards := by
    simp [Deck.new]
  have hinv := draw_n_partition n Deck.new hbase
  have hperm : ((draw_n n Deck.new).remaining_cards ++ (draw_n n Deck.new).drawn_cards).Perm
      all_cards := by
    have h1 : ((draw_n n Deck.new).remaining_cards ++ (draw_n n Deck.new).drawn_cards).Perm
        ((draw_n n Deck.new).remaining_cards ++ (draw_n n Deck.new).drawn_cards.reverse) :=
      List.Perm.append_left _ (List.reverse_perm _).symm
    rw [hinv] at h1
    exact h1
  have hnodup : ((draw_n n Deck.new).remaining_cards ++ (draw_n n Deck.new).drawn_cards).Nodup :=
    hperm.nodup_iff.mpr all_cards_nodup
  refine ⟨hperm, ?_, ?_, by decide⟩
  · intro c
    rw [hperm.count_eq]
    exact List.count_eq_one_of_mem all_cards_nodup (mem_all_cards c)
  · exact (List.nodup_append.mp hnodup).2.2

/-- Combining a single hand value with a list of values keeps, in order,
exactly the sums that are at most 21. -/
lemma combine_one_eq_filter (a : HandValue) (ys : List HandValue) :
    ((ys.map fun y => a.combine_with_separate_value y).filterMap id).map HandValue.value
      = (ys.map fun y => a.value + y.value).filter fun n => n ≤ 21 := by
  induction ys with
  | nil => rfl
  | cons y ys ih =>
      by_cases h : a.value + y.value ≤ 21
      · simp [HandValue.combine_with_separate_value, h] at ih ⊢
        exact ih
      · simp [HandValue.combine_with_separate_value, h] at ih ⊢
        exact ih

/-- A seed already above 21 contributes no sum at most 21. -/
lemma filter_of_big_seed (r : Nat) (hr : ¬r ≤ 21) (ys : List HandValue) :
    ((ys.map fun y => r + y.value).filter fun n => n ≤ 21) = [] := by
  rw [List.filter_eq_nil_iff]
  intro n hn
  simp only [List.mem_map] at hn
  obtain ⟨y, _, rfl⟩ := hn
  simp only [decide_eq_true_eq]
  omega

/-- The unpruned cartesian step written as a direct double map of sums. -/
lemma raw_step_eq (R : List Nat) (y : List HandValue) :
    (cartesian_product R y).map (fun x_and_y => x_and_y.1 + x_and_y.2.value)
      = R.flatMap fun r => y.map fun b => r + b.value := by
  induction R with
  | nil => rfl
  | cons r R ih =>
      simp only [cartesian_product, List.flatMap_cons, List.map_append, List.map_map] at ih ⊢
      rw [ih]
      rfl

/-- One step of the pruned combination fold returns, in order and with
multiplicity, exactly the sums at most 21 of the corresponding unpruned
step, whenever the running collections are so related. -/
lemma combine_step_eq_raw_step (y : List HandValue) (R : List Nat) :
    ∀ S : List HandValue,
      S.map HandValue.value = R.filter (fun n => n ≤ 21) →
      (combine_possible_values S y).map HandValue.value
        = (R.flatMap fun r => y.map fun b => r + b.value).filter fun n => n ≤ 21 := by
  induction R with
  | nil =>
      intro S hS
      have hSnil : S = [] := by
        cases S with
        | nil => rfl
        | cons s S => simp at hS
      subst hSnil
      rfl
  | cons r R ih =>
      intro S hS
      by_cases hr : r ≤ 21
      · rw [List.filter_cons] at hS
        simp only [decide_eq_true_eq, hr, if_true, if_pos] at hS
        cases S with
        | nil => simp at hS
        | cons s S =>
            simp only [List.map_cons, List.cons.injEq] at hS
            obtain ⟨hs, hS2⟩ := hS
            have hhead := combine_one_eq_filter s y
            have htail := ih S hS2
            simp only [combine_possible_values, List.flatMap_cons, List.filterMap_append,
              List.map_append, List.filter_append] at htail ⊢
            rw [hhead, hs, htail]
      · rw [List.filter_cons] at hS
        simp only [decide_eq_true_eq, hr, if_false, if_neg, not_false_eq_true] at hS
        have htail := ih S hS
        simp only [List.flatMap_cons, List.filter_append]
        rw [filter_of_big_seed r hr y, List.nil_append]
        exact htail

/-- The pruned fold and the unpruned fold stay related along any list of
per-card value lists. -/
lemma foldl_combine_eq_foldl_raw (L : List (List HandValue)) :
    ∀ (S : List HandValue) (R : List Nat),
      S.map HandValue.value = R.filter (fun n => n ≤ 21) →
      (L.foldl (fun x y => combine_possible_values x y) S).map HandValue.value
        = (L.foldl
            (fun x y => (cartesian_product x y).map fun x_and_y => x_and_y.1 + x_and_y.2.value)
            R).filter fun n => n ≤ 21 := by
  induction L with
  | nil => intro S R h; simpa using h
  | cons y L ih =>
      intro S R h
      simp only [List.foldl_cons]
      refine ih _ _ ?_
      rw [raw_step_eq]
      exact combine_step_eq_raw_step y R S h

/-- The totals of the pruned valuation are, in order and with multiplicity,
the totals at most 21 of the unpruned valuation. -/
lemma calculate_eq_raw_filter (hand : List CardValue) :
    (calculate_current_hand_value hand).map HandValue.value
      = (raw_calculate_current_hand_value hand).filter fun n => n ≤ 21 := by
  unfold calculate_current_hand_value raw_calculate_current_hand_value
  exact foldl_combine_eq_foldl_raw _ _ _ rfl

/-- C10: the pruned hand valuation returns exactly the totals of the raw
unpruned valuation that are at most 21, in the same order and with the
same multiplicities. -/
theorem pruned_eq_raw_filtered (hand : List CardValue) :
    (calculate_current_hand_value hand).map HandValue.value
      = (raw_calculate_current_hand_value hand).filter fun n => n ≤ 21 :=
  calculate_eq_raw_filter hand

/-- C4, amended: every total returned by the hand valuation is at most 21,
but the returned collection is not deduplicated — for the two-ace hand it
is [2, 12, 12], whose underlying set of totals is \x7b2, 12\x7d. -/
theorem hand_values_bounded_with_duplicates :
    (∀ hand : List CardValue,
      (calculate_current_hand_value hand).all (fun h => h.value ≤ 21) = true) ∧
    (calculate_current_hand_value [CardValue.Ace, CardValue.Ace]).map HandValue.value
      = [2, 12, 12] ∧
    ((calculate_current_hand_value [CardValue.Ace, CardValue.Ace]).map HandValue.value).toFinset
      = ({2, 12} : Finset Nat) := by
  refine ⟨?_, by decide, by decide⟩
  intro hand
  rw [List.all_eq_true]
  intro h hmem
  have h21 : h.value ∈ (raw_calculate_current_hand_value hand).filter fun n => n ≤ 21 := by
    rw [← calculate_eq_raw_filter]
    exact List.mem_map_of_mem _ hmem
  have := List.of_mem_filter h21
  simpa using this

/-- A draw on a deck with no remaining cards returns no card and the deck
unchanged. -/
lemma draw_card_of_nil (deck : Deck) (h : deck.remaining_cards = []) :
    draw_card deck = (none, deck) := by
  obtain ⟨rem, drawn⟩ := deck
  simp only at h
  subst h
  rfl

/-- Unfolding of the Hit transition on a Continuing state: the drawn card
(if any) is appended and the new hand is checked for bust and for 21. -/
lemma deal_hit_eq (deck : Deck) (hand : List Card) (card_opt : Option Card) (deck2 : Deck)
    (h : draw_card deck = (card_opt, deck2)) :
    deal_with_action Action.Hit (GameState.Continuing ⟨deck, hand⟩)
      = (if is_hand_too_large (hand ++ card_opt.toList) then
           GameState.GameLost ⟨deck2, hand ++ card_opt.toList⟩
         else if ((calculate_current_hand_value
             ((hand ++ card_opt.toList).map fun card => card.value)).find?
               fun x => x.value == 21).isSome then
           GameState.GameWon ⟨deck2, hand ++ card_opt.toList⟩
         else GameState.Continuing ⟨deck2, hand ++ card_opt.toList⟩) := by
  unfold deal_with_action
  dsimp only
  rw [h]
  cases card_opt with
  | none => simp [PlayerState.create_hand_values]
  | some card => simp [PlayerState.create_hand_values]

/-- C1: on a Continuing state, Hit draws one card; when a card is returned
it is appended to the hand, and the new hand decides the next state — too
large gives Lost, a possible total of 21 gives Won, anything else
Continuing; when the deck is empty the unchanged hand is re-evaluated
against the same checks, so a Continuing state whose hand is neither too
large nor worth 21 stays Continuing with deck and hand unchanged. -/
theorem hit_transition_spec (deck : Deck) (hand : List Card) :
    (∀ (card : Card) (deck2 : Deck),
      draw_card deck = (some card, deck2) →
      deal_with_action Action.Hit (GameState.Continuing ⟨deck, hand⟩)
        = (if is_hand_too_large (hand ++ [card]) then
             GameState.GameLost ⟨deck2, hand ++ [card]⟩
           else if ((calculate_current_hand_value
               ((hand ++ [card]).map fun card => card.value)).find?
                 fun x => x.value == 21).isSome then
             GameState.GameWon ⟨deck2, hand ++ [card]⟩
           else GameState.Continuing ⟨deck2, hand ++ [card]⟩)) ∧
    (deck.remaining_cards = [] →
      deal_with_action Action.Hit (GameState.Continuing ⟨deck, hand⟩)
        = (if is_hand_too_large hand then GameState.GameLost ⟨deck, hand⟩
           else if ((calculate_current_hand_value
               (hand.map fun card => card.value)).find?
                 fun x => x.value == 21).isSome then
             GameState.GameWon ⟨deck, hand⟩
           else GameState.Continuing ⟨deck, hand⟩)) ∧
    (deck.remaining_cards = [] →
      is_hand_too_large hand = false →
      ((calculate_current_hand_value (hand.map fun card => card.value)).find?
        fun x => x.value == 21) = none →
      deal_with_action Action.Hit (GameState.Continuing ⟨deck, hand⟩)
        = GameState.Continuing ⟨deck, hand⟩) := by
  refine ⟨?_, ?_, ?_⟩
  · intro card deck2 hdraw
    rw [deal_hit_eq deck hand (some card) deck2 hdraw]
    rfl
  · intro hnil
    rw [deal_hit_eq deck hand none deck (draw_card_of_nil deck hnil)]
    simp
  · intro hnil htl h21
    rw [deal_hit_eq deck hand none deck (draw_card_of_nil deck hnil)]
    simp [htl, h21]

/-- Witness for C1: hitting with one king in the deck appends the king and
continues; hitting on an exhausted deck with a lone king in hand leaves the
state unchanged. -/
theorem hit_transition_spec_witness :
    deal_with_action Action.Hit
        (GameState.Continuing
          ⟨⟨[Card.mk CardSuit.Clubs CardValue.King], []⟩, []⟩)
      = GameState.Continuing
          ⟨⟨[], [Card.mk CardSuit.Clubs CardValue.King]⟩,
           [Card.mk CardSuit.Clubs CardValue.King]⟩ ∧
    deal_with_action Action.Hit
        (GameState.Continuing
          ⟨⟨[], [Card.mk CardSuit.Clubs CardValue.King]⟩,
           [Card.mk CardSuit.Clubs CardValue.King]⟩)
      = GameState.Continuing
          ⟨⟨[], [Card.mk CardSuit.Clubs CardValue.King]⟩,
           [Card.mk CardSuit.Clubs CardValue.King]⟩ := by
  constructor
  · have h := (hit_transition_spec ⟨[Card.mk CardSuit.Clubs CardValue.King], []⟩ []).1
      (Card.mk CardSuit.Clubs CardValue.King) ⟨[], [Card.mk CardSuit.Clubs CardValue.King]⟩
      (by decide)
    rw [h]
    decide
  · exact (hit_transition_spec ⟨[], [Card.mk CardSuit.Clubs CardValue.King]⟩
      [Card.mk CardSuit.Clubs CardValue.King]).2.2 rfl (by decide) (by decide)

/-- Witness for C5: 20 is accepted by the strict bound and 10 + 11 = 21 is
accepted by the inclusive bound. -/
theorem hand_value_bound_asymmetry_witness :
    HandValue.from_u32 20 = some ⟨20⟩ ∧
    (HandValue.mk 10).combine_with_separate_value ⟨11⟩ = some ⟨21⟩ :=
  ⟨(hand_value_bound_asymmetry 20 ⟨10⟩ ⟨11⟩).1.mpr (by decide),
   (hand_value_bound_asymmetry 20 ⟨10⟩ ⟨11⟩).2.2.1.mpr (by decide)⟩

/-- Witness for C6: the king-queen-two hand is non-empty with no achievable
total, hence too large. -/
theorem too_large_iff_witness :
    is_hand_too_large
      [Card.mk CardSuit.Clubs CardValue.King, Card.mk CardSuit.Clubs CardValue.Queen,
       Card.mk CardSuit.Clubs CardValue.Two] = true :=
  (too_large_iff_nonempty_no_totals _).1.mpr ⟨by decide, by decide⟩

/-- Witness for C8: after five draws from a fresh deck the two of clubs
still occurs exactly once across remaining and drawn cards. -/
theorem deck_partition_invariant_witness :
    ((draw_n 5 Deck.new).remaining_cards ++ (draw_n 5 Deck.new).drawn_cards).count
      (Card.mk CardSuit.Clubs CardValue.Two) = 1 :=
  (deck_partition_invariant 5).2.1 (Card.mk CardSuit.Clubs CardValue.Two)

end Blackjack
